import Mathlib

/-!
Verification of the voice assistant front end.

JavaScript strings are modelled as lists of characters, JavaScript numbers
appearing in the claims as integers with an explicit NaN case where needed,
and fallible operations as Except values.  Every definition is a shallow
embedding of a function of the repository, with the source location noted
in its doc comment.
-/

namespace VoiceAssist

abbrev Str := List Char

/-- Whitespace test used by the embeddings of the JS trim and regex
whitespace operations. -/
def isWS (c : Char) : Bool := c.isWhitespace

/-- Left part of String.prototype.trim. -/
def trimLeft (s : Str) : Str := s.dropWhile isWS

/-- Right part of String.prototype.trim. -/
def trimRight (s : Str) : Str := (s.reverse.dropWhile isWS).reverse

/-- Embedding of String.prototype.trim. -/
def trim (s : Str) : Str := trimLeft (trimRight s)

theorem dropWhile_cons_false {p : Char → Bool} {a : Char} {l : Str} (h : p a = false) :
    List.dropWhile p (a :: l) = a :: l := by
  simp [List.dropWhile, h]

theorem length_dropWhile_le (p : Char → Bool) (l : Str) :
    (List.dropWhile p l).length ≤ l.length := by
  induction l with
  | nil => simp [List.dropWhile]
  | cons a t ih =>
    cases h : p a with
    | true => simp [List.dropWhile, h]; omega
    | false => simp [List.dropWhile, h]

theorem dropWhile_eq_nil_or_head {p : Char → Bool} (l : Str) :
    List.dropWhile p l = [] ∨ ∃ a t, List.dropWhile p l = a :: t ∧ p a = false := by
  induction l with
  | nil => left; rfl
  | cons a t ih =>
    cases h : p a with
    | true => simpa [List.dropWhile, h] using ih
    | false => exact Or.inr ⟨a, t, by simp [List.dropWhile, h], h⟩

theorem dropWhile_idem (p : Char → Bool) (l : Str) :
    List.dropWhile p (List.dropWhile p l) = List.dropWhile p l := by
  rcases dropWhile_eq_nil_or_head (p := p) l with h | ⟨a, t, h, ha⟩
  · simp [h, List.dropWhile]
  · rw [h]; exact dropWhile_cons_false ha

theorem dropWhile_append_of_ne_nil {p : Char → Bool} {l : Str}
    (h : List.dropWhile p l ≠ []) (m : Str) :
    List.dropWhile p (l ++ m) = List.dropWhile p l ++ m := by
  induction l with
  | nil => exact absurd rfl h
  | cons a t ih =>
    cases ha : p a with
    | true =>
      have h2 : List.dropWhile p t ≠ [] := by simpa [List.dropWhile, ha] using h
      simp [List.dropWhile, ha, ih h2]
    | false => simp [List.dropWhile, ha]

theorem dropWhile_eq_self_of_length {p : Char → Bool} {l : Str}
    (h : (List.dropWhile p l).length = l.length) : List.dropWhile p l = l := by
  induction l with
  | nil => rfl
  | cons a t ih =>
    cases ha : p a with
    | true =>
      exfalso
      have hle := length_dropWhile_le p t
      simp [List.dropWhile, ha] at h
      omega
    | false => simp [List.dropWhile, ha]

theorem dropWhile_fixed_of_append {p : Char → Bool} {x y : Str}
    (h : List.dropWhile p (x ++ y) = x ++ y) (hx : x ≠ []) :
    List.dropWhile p x = x := by
  match x with
  | [] => exact absurd rfl hx
  | a :: x1 =>
    cases ha : p a with
    | false => exact dropWhile_cons_false ha
    | true =>
      exfalso
      have h2 : List.dropWhile p (x1 ++ y) = a :: (x1 ++ y) := by
        simpa [List.dropWhile, ha] using h
      have hlen : (List.dropWhile p (x1 ++ y)).length = (x1 ++ y).length + 1 := by
        rw [h2, List.length_cons]
      have hle := length_dropWhile_le p (x1 ++ y)
      omega

theorem dropWhile_suffix (p : Char → Bool) (l : Str) :
    ∃ t, t ++ List.dropWhile p l = l := by
  induction l with
  | nil => exact ⟨[], rfl⟩
  | cons a t ih =>
    cases ha : p a with
    | true =>
      rcases ih with ⟨u, hu⟩
      exact ⟨a :: u, by simp [List.dropWhile, ha, hu]⟩
    | false => exact ⟨[], by simp [List.dropWhile, ha]⟩

theorem trimRight_append_ws {s : Str} {c : Char} (h : isWS c = true) :
    trimRight (s ++ [c]) = trimRight s := by
  simp [trimRight, List.dropWhile, h]

theorem trimRight_length_le (s : Str) : (trimRight s).length ≤ s.length := by
  have h := length_dropWhile_le isWS s.reverse
  simpa [trimRight] using h

theorem trim_fixed_right {s : Str} (h : trim s = s) : trimRight s = s := by
  have h1 : (trim s).length ≤ (trimRight s).length := length_dropWhile_le _ _
  have h2 : (trimRight s).length ≤ s.length := trimRight_length_le s
  have h3 : (trim s).length = s.length := by rw [h]
  have h4 : (s.reverse.dropWhile isWS).length = s.reverse.length := by
    simp only [trimRight] at h1 h2 ⊢
    simp only [List.length_reverse] at h1 h2 ⊢
    omega
  have h5 := dropWhile_eq_self_of_length h4
  simp [trimRight, h5]

theorem trim_fixed_left {s : Str} (h : trim s = s) : trimLeft s = s := by
  have hR := trim_fixed_right h
  have h2 : trimLeft (trimRight s) = s := h
  rwa [hR] at h2

theorem trim_trim_left (x : Str) : trimLeft (trim x) = trim x :=
  dropWhile_idem isWS (trimRight x)

theorem trim_trim_right (x : Str) : trimRight (trim x) = trim x := by
  by_cases hc : trim x = []
  · rw [hc]; rfl
  · rcases dropWhile_suffix isWS (trimRight x) with ⟨t, ht⟩
    have ht2 : t ++ trim x = trimRight x := ht
    have hRT : (trimRight x).reverse.dropWhile isWS = (trimRight x).reverse := by
      rw [trimRight, List.reverse_reverse]
      exact dropWhile_idem _ _
    rw [← ht2, List.reverse_append] at hRT
    have hne : (trim x).reverse ≠ [] := by
      intro hcontra
      apply hc
      have := congrArg List.reverse hcontra
      simpa using this
    have hfix := dropWhile_fixed_of_append hRT hne
    rw [trimRight, hfix, List.reverse_reverse]

theorem trim_idem (x : Str) : trim (trim x) = trim x := by
  show trimLeft (trimRight (trim x)) = trim x
  rw [trim_trim_right x]
  exact trim_trim_left x

theorem trimRight_append_of_fixed {x y : Str} (hy : trimRight y ≠ []) :
    trimRight (x ++ y) = x ++ trimRight y := by
  have h1 : y.reverse.dropWhile isWS ≠ [] := by
    intro h
    apply hy
    simp [trimRight, h]
  rw [trimRight, List.reverse_append, dropWhile_append_of_ne_nil h1, List.reverse_append]
  simp [trimRight]

theorem trimLeft_append_of_fixed {x y : Str} (hx : trimLeft x ≠ []) :
    trimLeft (x ++ y) = trimLeft x ++ y :=
  dropWhile_append_of_ne_nil hx y

/-- Each chunk followed by one separator space, the shape in which the
onresult handler accumulates fullTranscriptRef. -/
def joinSp : List Str → Str
  | [] => []
  | c :: cs => c ++ ' ' :: joinSp cs

/-- Chunks joined by single interior spaces. -/
def sepJoin : List Str → Str
  | [] => []
  | [c] => c
  | c :: cs => c ++ ' ' :: sepJoin cs

theorem sepJoin_cons_cons (c d : Str) (ds : List Str) :
    sepJoin (c :: d :: ds) = c ++ ' ' :: sepJoin (d :: ds) := rfl

theorem sepJoin_ne_nil {c : Str} {cs : List Str} (hc : c ≠ []) :
    sepJoin (c :: cs) ≠ [] := by
  cases cs with
  | nil => simpa [sepJoin] using hc
  | cons d ds => simp [sepJoin_cons_cons]

theorem trimRight_joinSp :
    ∀ cs : List Str, (∀ c ∈ cs, trim c = c ∧ c ≠ []) → trimRight (joinSp cs) = sepJoin cs
  | [], _ => rfl
  | [c], h => by
    have hc := h c (by simp)
    have h1 : trimRight (joinSp [c]) = trimRight c := by
      show trimRight (c ++ [' ']) = trimRight c
      exact trimRight_append_ws (by decide)
    rw [h1, trim_fixed_right hc.1]
    rfl
  | c :: d :: ds, h => by
    have hdd : trimRight (joinSp (d :: ds)) = sepJoin (d :: ds) :=
      trimRight_joinSp (d :: ds) (fun x hx => h x (List.mem_cons_of_mem c hx))
    have hd := h d (by simp)
    have hne : sepJoin (d :: ds) ≠ [] := sepJoin_ne_nil hd.2
    have hy : trimRight (joinSp (d :: ds)) ≠ [] := by rw [hdd]; exact hne
    have hshape : joinSp (c :: d :: ds) = (c ++ [' ']) ++ joinSp (d :: ds) := by
      simp [joinSp]
    rw [hshape, trimRight_append_of_fixed hy, hdd, sepJoin_cons_cons]
    simp

theorem trimLeft_sepJoin :
    ∀ cs : List Str, (∀ c ∈ cs, trim c = c ∧ c ≠ []) → trimLeft (sepJoin cs) = sepJoin cs := by
  intro cs h
  cases cs with
  | nil => rfl
  | cons c cs1 =>
    have hc := h c (by simp)
    have hfix : trimLeft c = c := trim_fixed_left hc.1
    have hne : trimLeft c ≠ [] := by rw [hfix]; exact hc.2
    cases cs1 with
    | nil => exact hfix
    | cons d ds =>
      rw [sepJoin_cons_cons]
      have := trimLeft_append_of_fixed (y := ' ' :: sepJoin (d :: ds)) hne
      rw [this, hfix]

theorem trim_joinSp (cs : List Str) (h : ∀ c ∈ cs, trim c = c ∧ c ≠ []) :
    trim (joinSp cs) = sepJoin cs := by
  show trimLeft (trimRight (joinSp cs)) = sepJoin cs
  rw [trimRight_joinSp cs h]
  exact trimLeft_sepJoin cs h

/-! Speech capture: one recognition event delivers a batch of segments,
each final or interim, mirroring the loop over event results in the
onresult handler of App.tsx. -/

structure Seg where
  isFinal : Bool
  text : Str
deriving DecidableEq

/-- Final transcript chunk accumulated by the onresult loop over one event
batch (App.tsx lines 659 to 681). -/
def finalChunk : List Seg → Str
  | [] => []
  | s :: rest => (if s.isFinal then s.text else []) ++ finalChunk rest

/-- Interim transcript accumulated by the onresult loop over one event
batch; it is only displayed, never stored. -/
def interimChunk : List Seg → Str
  | [] => []
  | s :: rest => (if s.isFinal then [] else s.text) ++ interimChunk rest

/-- Effect of one onresult event on fullTranscriptRef (App.tsx lines 659
to 681): a final chunk with nonempty trim is appended, trimmed, plus one
separator space. -/
def onresultFull (full : Str) (ev : List Seg) : Str :=
  if trim (finalChunk ev) = [] then full
  else full ++ trim (finalChunk ev) ++ [' ']

/-- Value of fullTranscriptRef after a run of onresult events starting
from the empty utterance created on the transition into listening. -/
def runFinalized (evs : List (List Seg)) : Str :=
  evs.foldl onresultFull []

/-- The finalized utterance read by onend (App.tsx lines 683 to 697) and
handed to processTranscript, hence to the intent resolver. -/
def finalSpokenText (evs : List (List Seg)) : Str :=
  trim (runFinalized evs)

/-- Trimmed per event final chunks that are nonempty, in arrival order. -/
def finalEventChunks (evs : List (List Seg)) : List Str :=
  (evs.map (fun ev => trim (finalChunk ev))).filter (fun c => c != [])

/-- Modelled from the wording of the spec and claim C1: the space joined
concatenation of the trimmed final segment texts in arrival order. -/
def specFinalizedText (evs : List (List Seg)) : Str :=
  sepJoin (((evs.map (fun ev => ev.filter (fun s => s.isFinal))).flatten).map
    (fun s => trim s.text))

theorem finalEventChunks_cons (ev : List Seg) (rest : List (List Seg)) :
    finalEventChunks (ev :: rest) =
      if trim (finalChunk ev) = [] then finalEventChunks rest
      else trim (finalChunk ev) :: finalEventChunks rest := by
  by_cases h : trim (finalChunk ev) = [] <;>
    simp [finalEventChunks, List.filter_cons, h]

theorem foldl_onresultFull (evs : List (List Seg)) :
    ∀ acc : Str, evs.foldl onresultFull acc = acc ++ joinSp (finalEventChunks evs) := by
  induction evs with
  | nil => intro acc; simp [finalEventChunks, joinSp]
  | cons ev rest ih =>
    intro acc
    by_cases h : trim (finalChunk ev) = []
    · have h1 : onresultFull acc ev = acc := by simp [onresultFull, h]
      rw [List.foldl_cons, h1, ih, finalEventChunks_cons]
      simp [h]
    · have h1 : onresultFull acc ev = acc ++ trim (finalChunk ev) ++ [' '] := by
        simp [onresultFull, h]
      rw [List.foldl_cons, h1, ih, finalEventChunks_cons]
      simp [h, joinSp]

theorem finalEventChunks_spec (evs : List (List Seg)) :
    ∀ c ∈ finalEventChunks evs, trim c = c ∧ c ≠ [] := by
  intro c hc
  simp only [finalEventChunks, List.mem_filter, List.mem_map, bne_iff_ne, ne_eq] at hc
  obtain ⟨⟨ev, _, hev⟩, hne⟩ := hc
  subst hev
  exact ⟨trim_idem (finalChunk ev), hne⟩

theorem finalChunk_filter_final (ev : List Seg) :
    finalChunk (ev.filter (fun s => s.isFinal)) = finalChunk ev := by
  induction ev with
  | nil => rfl
  | cons s rest ih =>
    cases h : s.isFinal <;> simp [List.filter_cons, h, finalChunk, ih]

theorem finalEventChunks_filter_final (evs : List (List Seg)) :
    finalEventChunks (evs.map (fun ev => ev.filter (fun s => s.isFinal))) =
      finalEventChunks evs := by
  induction evs with
  | nil => rfl
  | cons ev rest ih =>
    rw [List.map_cons, finalEventChunks_cons, finalEventChunks_cons,
      finalChunk_filter_final, ih]

theorem finalSpokenText_eq_sepJoin (evs : List (List Seg)) :
    finalSpokenText evs = sepJoin (finalEventChunks evs) := by
  show trim (evs.foldl onresultFull []) = _
  rw [foldl_onresultFull evs []]
  rw [List.nil_append]
  exact trim_joinSp _ (finalEventChunks_spec evs)

/-- C1 (amended): the finalized utterance handed to the intent resolver is
the concatenation, joined by single spaces, of the per event final chunks
(each event chunk being the undelimited concatenation of that event's final
segment texts, trimmed, empty chunks dropped) in arrival order; it depends
only on the final segments, so interim text never appears in it.  The
original claim fails when one event carries several final segments, which
the code concatenates without a separator. -/
theorem claim_C1_amended (evs : List (List Seg)) :
    finalSpokenText evs = sepJoin (finalEventChunks evs) ∧
    finalSpokenText evs =
      finalSpokenText (evs.map (fun ev => ev.filter (fun s => s.isFinal))) := by
  refine ⟨finalSpokenText_eq_sepJoin evs, ?_⟩
  rw [finalSpokenText_eq_sepJoin, finalSpokenText_eq_sepJoin,
    finalEventChunks_filter_final]

/-- C1 counterexample: a single event carrying the two final segments ab
and cd finalizes to abcd, while the space joined trimmed concatenation of
the final segments is ab cd. -/
theorem claim_C1_counterexample :
    finalSpokenText [[⟨true, ['a', 'b']⟩, ⟨true, ['c', 'd']⟩]] ≠
      specFinalizedText [[⟨true, ['a', 'b']⟩, ⟨true, ['c', 'd']⟩]] := by
  decide

/-! Debounce timer of the recognition session. -/

def debounceMs : Nat := 1500

/-- Timer effect of one onresult event arriving at time t (App.tsx lines
659 to 681): any pending timeout is cleared first, and a new stop is
scheduled only when the final chunk of the event has a nonempty trim. -/
def debounceStep (_timer : Option Nat) (t : Nat) (ev : List Seg) : Option Nat :=
  let cleared : Option Nat := none
  if trim (finalChunk ev) = [] then cleared
  else some (t + debounceMs)

/-- Time at which the debounce scheduled stop fires, given timed onresult
events in increasing order; none when it never fires.  A pending timeout
fires when the next event arrives strictly later than its deadline, and a
timeout still pending after the last event always fires. -/
def runDebounce : Option Nat → List (Nat × List Seg) → Option Nat
  | timer, [] => timer
  | timer, (t, ev) :: rest =>
    match timer with
    | some d => if d < t then some d else runDebounce (debounceStep (some d) t ev) rest
    | none => runDebounce (debounceStep none t ev) rest

/-- Either no event follows, or the next event arrives strictly after d. -/
def NextGap (evs : List (Nat × List Seg)) (d : Nat) : Prop :=
  evs = [] ∨ ∃ t1 ev1 rest1, evs = (t1, ev1) :: rest1 ∧ d < t1

/-- The debounce stop at time d was scheduled by an event with final text
at time d minus the debounce delay, and no further event arrived before d. -/
def DebounceStopOk (evs : List (Nat × List Seg)) (d : Nat) : Prop :=
  ∃ pre t ev rest, evs = pre ++ (t, ev) :: rest ∧ trim (finalChunk ev) ≠ [] ∧
    d = t + debounceMs ∧ NextGap rest d

theorem debounceStep_some {timer : Option Nat} {t : Nat} {ev : List Seg} {d : Nat}
    (h : debounceStep timer t ev = some d) :
    trim (finalChunk ev) ≠ [] ∧ d = t + debounceMs := by
  by_cases hc : trim (finalChunk ev) = []
  · simp [debounceStep, hc] at h
  · simp [debounceStep, hc] at h
    exact ⟨hc, h.symm⟩

theorem runDebounce_some :
    ∀ (evs : List (Nat × List Seg)) (timer : Option Nat) (d : Nat),
      runDebounce timer evs = some d →
      (timer = some d ∧ NextGap evs d) ∨ DebounceStopOk evs d := by
  intro evs
  induction evs with
  | nil =>
    intro timer d h
    exact Or.inl ⟨h, Or.inl rfl⟩
  | cons p rest ih =>
    obtain ⟨t, ev⟩ := p
    intro timer d h
    have hrec : ∀ timer0 : Option Nat,
        runDebounce (debounceStep timer0 t ev) rest = some d →
        (timer = some d ∧ NextGap ((t, ev) :: rest) d) ∨
          DebounceStopOk ((t, ev) :: rest) d := by
      intro timer0 hr
      rcases ih (debounceStep timer0 t ev) d hr with ⟨hstep, hgap⟩ | hstop
      · obtain ⟨hne, hd⟩ := debounceStep_some hstep
        exact Or.inr ⟨[], t, ev, rest, rfl, hne, hd, hgap⟩
      · obtain ⟨pre, t2, ev2, rest2, heq, hne, hd, hgap⟩ := hstop
        exact Or.inr ⟨(t, ev) :: pre, t2, ev2, rest2, by rw [heq]; rfl, hne, hd, hgap⟩
    match htimer : timer with
    | none =>
      rw [runDebounce] at h
      exact hrec none h
    | some d0 =>
      rw [runDebounce] at h
      by_cases hlt : d0 < t
      · rw [if_pos hlt] at h
        injection h with h
        subst h
        exact Or.inl ⟨rfl, Or.inr ⟨t, ev, rest, rfl, hlt⟩⟩
      · rw [if_neg hlt] at h
        exact hrec (some d0) h

/-- C2 (amended): an onresult event whose final chunk has nonempty trim
always cancels any pending debounce timeout and schedules a new stop for
its arrival time plus 1500 ms; and whenever the debounce fires at time d,
an event with nonempty trimmed final text arrived at d minus 1500 and no
further event of any kind, in particular no further final segment, arrived
before d.  The original claim fails for a final segment whose text is
whitespace only: such an event cancels the pending timeout without
restarting it. -/
theorem claim_C2_amended :
    (∀ (timer : Option Nat) (t : Nat) (ev : List Seg),
        trim (finalChunk ev) ≠ [] → debounceStep timer t ev = some (t + debounceMs)) ∧
    (∀ (evs : List (Nat × List Seg)) (d : Nat),
        runDebounce none evs = some d → DebounceStopOk evs d) := by
  constructor
  · intro timer t ev h
    simp [debounceStep, h]
  · intro evs d h
    rcases runDebounce_some evs none d h with ⟨h1, _⟩ | h2
    · exact absurd h1 (by simp)
    · exact h2

/-- C2 witness: a final segment with text hi restarts the timer over a
pending deadline, and the one event trace fires exactly 1500 ms later. -/
theorem claim_C2_witness :
    debounceStep (some 100) 0 [⟨true, ['h', 'i']⟩] = some (0 + debounceMs) ∧
    DebounceStopOk [(0, [⟨true, ['h', 'i']⟩])] 1500 :=
  ⟨claim_C2_amended.1 (some 100) 0 [⟨true, ['h', 'i']⟩] (by decide),
   claim_C2_amended.2 [(0, [⟨true, ['h', 'i']⟩])] 1500 (by decide)⟩

/-- C2 counterexample: a final whitespace only segment arriving at time
1000, before a pending deadline 2000, clears the timeout without
restarting it, so the timer is neither restarted to 2500 nor kept. -/
theorem claim_C2_counterexample :
    (⟨true, [' ']⟩ : Seg).isFinal = true ∧ (1000 : Nat) < 2000 ∧
    debounceStep (some 2000) 1000 [⟨true, [' ']⟩] = none ∧
    (none : Option Nat) ≠ some (1000 + debounceMs) := by
  decide

/-! Assistant state machine and playback session, mirroring the React
state and refs of App.tsx.  The audio element is statically rendered, so
it is modelled as always present. -/

inductive AState
  | idle
  | listening
  | thinking
  | speaking
  | error
deriving DecidableEq

inductive Panel
  | youtube
  | code
  | notes
  | youtubeSearchResults
  | webSearchResults
  | file
  | none
deriving DecidableEq

/-- MediaSource readyState. -/
inductive MSReady
  | opened
  | ended
  | closed
deriving DecidableEq

structure YTResult where
  videoId : Str
  title : Str
  thumbnailUrl : Str
deriving DecidableEq

structure AppState where
  assistantState : AState
  recognitionActive : Bool
  isOnCooldown : Bool
  sessionOpenRequested : Bool
  transcript : Str
  fullTranscript : Str
  assistantReply : Str
  statusText : Str
  targetPanel : Panel
  youtubeVideoId : Option Str
  youtubeVideoTitle : Option Str
  youtubeSearchResults : List YTResult
  currentVideoIndex : Option Nat
  audioPaused : Bool
  audioSrcSet : Bool
  mediaSource : Option MSReady
  sourceBufferSet : Bool
  audioQueue : List Nat
  isSourceBufferUpdating : Bool
  speakCalls : List Str
deriving DecidableEq

instance exceptDecEq {ε α : Type} [DecidableEq ε] [DecidableEq α] :
    DecidableEq (Except ε α) := fun a b =>
  match a, b with
  | .ok x, .ok y =>
    if h : x = y then .isTrue (by rw [h]) else .isFalse (fun hc => h (by injection hc))
  | .error x, .error y =>
    if h : x = y then .isTrue (by rw [h]) else .isFalse (fun hc => h (by injection hc))
  | .ok _, .error _ => .isFalse (fun hc => Except.noConfusion hc)
  | .error _, .ok _ => .isFalse (fun hc => Except.noConfusion hc)

/-- Calling endOfStream throws an InvalidStateError unless the source is
open. -/
def msEndOfStream (r : MSReady) : Except Unit MSReady :=
  match r with
  | .opened => .ok .ended
  | _ => .error ()

/-- stopSpeaking (App.tsx lines 252 to 266).  The endOfStream call is
guarded on an open readyState and wrapped in a try catch whose error is
swallowed; an uncaught throw would surface as an error value. -/
def stopSpeakingE (s : AppState) : Except Unit AppState :=
  let s1 := { s with audioPaused := true }
  let s2 :=
    match s1.mediaSource with
    | some r =>
      if r = MSReady.opened then
        match msEndOfStream r with
        | .ok r2 => { s1 with mediaSource := some r2 }
        | .error _ => s1
      else s1
    | none => s1
  .ok { s2 with audioSrcSet := false, mediaSource := none, sourceBufferSet := false,
                audioQueue := [], isSourceBufferUpdating := false }

/-- The state stopSpeaking leaves behind. -/
def stopSpeakingRun (s : AppState) : AppState :=
  { s with audioPaused := true, audioSrcSet := false, mediaSource := none,
           sourceBufferSet := false, audioQueue := [], isSourceBufferUpdating := false }

theorem stopSpeakingE_eq (s : AppState) : stopSpeakingE s = .ok (stopSpeakingRun s) := by
  rcases s with ⟨a, ra, cd, so, tr, ft, re, st, tp, vid, vtt, yrs, cvi, ap, asrc, ms, sb, aq, upd, spk⟩
  rcases ms with _ | r
  · rfl
  · cases r <;> rfl

theorem stopSpeakingRun_idem (s : AppState) :
    stopSpeakingRun (stopSpeakingRun s) = stopSpeakingRun s := rfl

/-- C7: stopSpeaking never throws, for any state of the playback session
including no open session at all, leaves the queued chunk buffer empty,
and calling it a second time returns the identical state. -/
theorem claim_C7 (s : AppState) :
    ∃ s1, stopSpeakingE s = .ok s1 ∧ s1.audioQueue = [] ∧ stopSpeakingE s1 = .ok s1 := by
  refine ⟨stopSpeakingRun s, stopSpeakingE_eq s, rfl, ?_⟩
  rw [stopSpeakingE_eq, stopSpeakingRun_idem]

def strListening : Str := "Listening...".toList

def strMicError : Str := "Mic Error".toList

def baseState : AppState :=
  ⟨AState.idle, false, false, false, [], [], [], [], Panel.none, none, none, [],
   none, false, false, none, false, [], false, []⟩

/-- startListening (App.tsx lines 268 to 289).  The parameter startThrows
models whether the start call on the recognition handle throws; that throw
is caught inside the function. -/
def startListeningE (startThrows : Bool) (s : AppState) : Except Unit AppState :=
  if s.recognitionActive || s.isOnCooldown
      || s.assistantState == AState.thinking || s.assistantState == AState.speaking then
    .ok s
  else
    let s1 := { s with assistantState := AState.listening,
                       statusText := strListening,
                       transcript := [], fullTranscript := [], assistantReply := [] }
    match stopSpeakingE s1 with
    | .error e => .error e
    | .ok s2 =>
      if startThrows then
        .ok { s2 with recognitionActive := false, assistantState := AState.error,
                      statusText := strMicError }
      else
        .ok { s2 with sessionOpenRequested := true }

/-- C3 (amended): startListening is a no-op exactly under the guard of the
source, namely when the recognition active flag or the cooldown flag is
set, or the assistant state is thinking or speaking; in particular in the
thinking and speaking states nothing changes and no session is opened.
The original claim fails for the listening state with the active flag
clear, which the guard does not block. -/
theorem claim_C3_amended (b : Bool) (s : AppState)
    (h : s.recognitionActive = true ∨ s.isOnCooldown = true ∨
         s.assistantState = AState.thinking ∨ s.assistantState = AState.speaking) :
    startListeningE b s = .ok s := by
  have hg : (s.recognitionActive || s.isOnCooldown
      || s.assistantState == AState.thinking || s.assistantState == AState.speaking) = true := by
    rcases h with h | h | h | h <;> simp [h]
  simp [startListeningE, hg]

/-- C3 witness: in the thinking state startListening returns the state
unchanged. -/
theorem claim_C3_witness :
    startListeningE false { baseState with assistantState := AState.thinking } =
      .ok { baseState with assistantState := AState.thinking } :=
  claim_C3_amended false { baseState with assistantState := AState.thinking }
    (Or.inr (Or.inr (Or.inl rfl)))

/-- C3 counterexample: the listening state with the recognition active
flag clear and no cooldown is outside idle and error, yet startListening
is not a no-op there: it resets the utterance and opens a session. -/
theorem claim_C3_counterexample :
    ({ baseState with assistantState := AState.listening } : AppState).assistantState ≠
      AState.idle ∧
    ({ baseState with assistantState := AState.listening } : AppState).assistantState ≠
      AState.error ∧
    startListeningE false { baseState with assistantState := AState.listening } ≠
      .ok { baseState with assistantState := AState.listening } := by
  decide

/-! Speech output. -/

def dotsStr : Str := "...".toList

/-- Character class kept by the speak cleaning regex: letters, digits,
whitespace and the listed punctuation (App.tsx line 330).  The Unicode
letter and number classes are modelled by the Char alpha and digit tests,
which cover the characters these claims exercise. -/
def jsAllowed (c : Char) : Bool :=
  c.isAlpha || c.isDigit || c.isWhitespace ||
    c == '.' || c == ',' || c == '?' || c == '!' || c == '।'

/-- Collapse every whitespace run to one space, the global replace of a
whitespace run by one space in speak; the flag records whether the
previous character was whitespace. -/
def collapseWSAux : Bool → Str → Str
  | _, [] => []
  | prevWS, c :: rest =>
    if isWS c then
      if prevWS then collapseWSAux true rest
      else ' ' :: collapseWSAux true rest
    else c :: collapseWSAux false rest

/-- The cleaned text computed by speak (App.tsx line 330): disallowed
characters become spaces, whitespace runs collapse, then trim. -/
def cleanText (t : Str) : Str :=
  trim (collapseWSAux false (t.map (fun c => if jsAllowed c then c else ' ')))

/-- Synchronous observations of one speak call. -/
structure SpeakSync where
  callbackCalls : Nat
  started : Bool
deriving DecidableEq

/-- speak (App.tsx lines 328 to 424): its synchronous state effect
together with the number of synchronous completion callback invocations
and whether the speaking path was entered.  The speakCalls field of the
state is an observation log of requested texts.  The asynchronous audio
continuation after stopSpeaking touches none of the fields the claims
mention and is not modelled. -/
def speakE (s : AppState) (text : Str) : Except Unit (AppState × SpeakSync) :=
  let s0 := { s with speakCalls := s.speakCalls ++ [text] }
  let cleaned := cleanText text
  if cleaned = [] then .ok (s0, ⟨1, false⟩)
  else
    let s1 := { s0 with assistantState := AState.speaking, statusText := dotsStr,
                        assistantReply := cleaned }
    match stopSpeakingE s1 with
    | .error e => .error e
    | .ok s2 => .ok (s2, ⟨0, true⟩)

/-- C10: when the cleaned form of the text is empty, speak invokes its
completion callback exactly once and returns without entering the speaking
state, without changing the displayed reply, and without starting any
audio session: the state is unchanged apart from the call log. -/
theorem claim_C10 (s : AppState) (text : Str) (h : cleanText text = []) :
    speakE s text = .ok ({ s with speakCalls := s.speakCalls ++ [text] }, ⟨1, false⟩) := by
  simp [speakE, h]

/-- C10 witness: a symbol only text cleans to empty and speak only logs
the call and reports one callback invocation. -/
theorem claim_C10_witness :
    speakE baseState ['@', '#'] =
      .ok ({ baseState with speakCalls := baseState.speakCalls ++ [['@', '#']] },
           ⟨1, false⟩) :=
  claim_C10 baseState ['@', '#'] (by decide)

/-! PlayMusic dispatch. -/

def playMusicFallback (q : Str) : Str :=
  "Maaf kijiye, mujhe \"".toList ++ q ++ "\" ke liye koi gaana nahi mila.".toList

def playSearchStatus (q : Str) : Str :=
  "Searching for \"".toList ++ q ++ "\" to play...".toList

/-- handleVideoSelect (App.tsx lines 429 to 434). -/
def handleVideoSelect (s : AppState) (video : YTResult) (index : Nat) : AppState :=
  { s with youtubeVideoId := some video.videoId,
           youtubeVideoTitle := some video.title,
           currentVideoIndex := some index,
           targetPanel := Panel.youtube }

/-- PlayMusic case of processAssistantResponse (App.tsx lines 520 to 532)
for a present query, with the searchYouTube return value passed in as
results.  The status text and panel updates run before the search in the
source; both outcome branches therefore see the panel already set to
none. -/
def playMusicCase (s : AppState) (query : Str) (results : List YTResult) :
    Except Unit AppState :=
  let s1 := { s with statusText := playSearchStatus query, targetPanel := Panel.none }
  match results with
  | r :: rs =>
    let s2 := { s1 with youtubeSearchResults := r :: rs }
    .ok (handleVideoSelect s2 r 0)
  | [] =>
    match speakE s1 (playMusicFallback query) with
    | .error e => .error e
    | .ok (s2, _) => .ok s2

/-- C8 (amended): on zero search results PlayMusic requests the spoken
fallback message and leaves the current video, title, index and search
result list unchanged, but the active panel has already been set to none
before the search; on nonempty results the first result is selected and
played immediately.  The original claim fails because the panel is
cleared in the empty result case as well. -/
theorem claim_C8_amended :
    (∀ (s : AppState) (q : Str), ∃ s1,
        playMusicCase s q [] = .ok s1 ∧
        s1.youtubeVideoId = s.youtubeVideoId ∧
        s1.youtubeVideoTitle = s.youtubeVideoTitle ∧
        s1.currentVideoIndex = s.currentVideoIndex ∧
        s1.youtubeSearchResults = s.youtubeSearchResults ∧
        s1.targetPanel = Panel.none ∧
        s1.speakCalls = s.speakCalls ++ [playMusicFallback q]) ∧
    (∀ (s : AppState) (q : Str) (r : YTResult) (rs : List YTResult), ∃ s1,
        playMusicCase s q (r :: rs) = .ok s1 ∧
        s1.youtubeVideoId = some r.videoId ∧
        s1.youtubeVideoTitle = some r.title ∧
        s1.currentVideoIndex = some 0 ∧
        s1.youtubeSearchResults = r :: rs ∧
        s1.targetPanel = Panel.youtube ∧
        s1.speakCalls = s.speakCalls) := by
  constructor
  · intro s q
    by_cases h : cleanText (playMusicFallback q) = []
    · refine ⟨{ s with statusText := playSearchStatus q, targetPanel := Panel.none,
                       speakCalls := s.speakCalls ++ [playMusicFallback q] },
        ?_, rfl, rfl, rfl, rfl, rfl, rfl⟩
      simp [playMusicCase, speakE, h]
    · refine ⟨stopSpeakingRun
        { s with statusText := dotsStr, targetPanel := Panel.none,
                 speakCalls := s.speakCalls ++ [playMusicFallback q],
                 assistantState := AState.speaking,
                 assistantReply := cleanText (playMusicFallback q) },
        ?_, rfl, rfl, rfl, rfl, rfl, rfl⟩
      simp [playMusicCase, speakE, h, stopSpeakingE_eq, stopSpeakingRun]
  · intro s q r rs
    exact ⟨handleVideoSelect
      { s with statusText := playSearchStatus q, targetPanel := Panel.none,
               youtubeSearchResults := r :: rs } r 0,
      rfl, rfl, rfl, rfl, rfl, rfl, rfl⟩

/-- C8 counterexample: with the youtube panel active, a PlayMusic with
zero results changes the active panel to none, so panel state is
mutated. -/
theorem claim_C8_counterexample :
    (match playMusicCase { baseState with targetPanel := Panel.youtube } ['a'] [] with
      | .ok s1 => s1.targetPanel
      | .error _ => Panel.youtube) = Panel.none ∧
    Panel.none ≠ Panel.youtube := by
  decide

/-! Retry with backoff around the classification call. -/

def listStartsWith : Str → Str → Bool
  | _, [] => true
  | [], _ :: _ => false
  | c :: s, p :: ps => c == p && listStartsWith s ps

/-- Embedding of String.prototype.includes. -/
def strIncludes : Str → Str → Bool
  | [], pat => listStartsWith [] pat
  | s@(_ :: rest), pat => listStartsWith s pat || strIncludes rest pat

def toLowerStr (s : Str) : Str := s.map Char.toLower

def rl429 : Str := "429".toList

def rlResource : Str := "RESOURCE_EXHAUSTED".toList

def rlQuota : Str := "quota".toList

/-- Rate limit detection on the stringified error (api.ts line 61). -/
def isRateLimitError (e : Str) : Bool :=
  strIncludes e rl429 || strIncludes e rlResource || strIncludes (toLowerStr e) rlQuota

def geminiMaxRetries : Nat := 3

def quotaMsg : Str :=
  "Gemini API ka kota samapt ho gaya hai. Kripya apna account plan aur billing jaankari jaanchein.".toList

def unexpectedMsg : Str := "An unexpected error occurred after all retries.".toList

/-- Result, performed sleeps and number of attempts of one retry wrapped
call. -/
structure RetryTrace (τ : Type) where
  result : Except Str τ
  sleeps : List Nat
  attempts : Nat
deriving DecidableEq

/-- Loop of callGeminiWithRetry (api.ts lines 51 to 79).  The fuel counts
the remaining loop iterations, so the source guard of the attempt index
being below maxRetries minus one is the fuel being positive; i is the
attempt index handed to the call, delay the current backoff. -/
def retryLoop {τ : Type} (f : Nat → Except Str τ) : Nat → Nat → Nat → RetryTrace τ
  | 0, _, _ => ⟨.error unexpectedMsg, [], 0⟩
  | fuel + 1, i, delay =>
    match f i with
    | .ok v => ⟨.ok v, [], 1⟩
    | .error e =>
      if isRateLimitError e then
        if 0 < fuel then
          let rest := retryLoop f fuel (i + 1) (delay * 2)
          ⟨rest.result, delay :: rest.sleeps, rest.attempts + 1⟩
        else ⟨.error quotaMsg, [], 1⟩
      else ⟨.error e, [], 1⟩

/-- callGeminiWithRetry (api.ts lines 51 to 79): three attempts starting
with a 1000 ms backoff. -/
def callGeminiWithRetry {τ : Type} (f : Nat → Except Str τ) : RetryTrace τ :=
  retryLoop f geminiMaxRetries 0 1000

theorem retryLoop_rl_step {τ : Type} (f : Nat → Except Str τ) (fuel i delay : Nat)
    (e : Str) (hf : f i = .error e) (hrl : isRateLimitError e = true) (hfuel : 0 < fuel) :
    retryLoop f (fuel + 1) i delay =
      ⟨(retryLoop f fuel (i + 1) (delay * 2)).result,
       delay :: (retryLoop f fuel (i + 1) (delay * 2)).sleeps,
       (retryLoop f fuel (i + 1) (delay * 2)).attempts + 1⟩ := by
  simp [retryLoop, hf, hrl, hfuel]

theorem retryLoop_rl_last {τ : Type} (f : Nat → Except Str τ) (i delay : Nat)
    (e : Str) (hf : f i = .error e) (hrl : isRateLimitError e = true) :
    retryLoop f 1 i delay = ⟨.error quotaMsg, [], 1⟩ := by
  simp [retryLoop, hf, hrl]

theorem retryLoop_ok {τ : Type} (f : Nat → Except Str τ) (fuel i delay : Nat) (v : τ)
    (hf : f i = .ok v) :
    retryLoop f (fuel + 1) i delay = ⟨.ok v, [], 1⟩ := by
  simp [retryLoop, hf]

theorem retryLoop_other {τ : Type} (f : Nat → Except Str τ) (fuel i delay : Nat)
    (e : Str) (hf : f i = .error e) (hrl : isRateLimitError e = false) :
    retryLoop f (fuel + 1) i delay = ⟨.error e, [], 1⟩ := by
  simp [retryLoop, hf, hrl]

/-- C4: three consecutive rate limited attempts make exactly three
attempts with backoff sleeps 1000 then 2000 and surface the quota failure
message; a rate limit followed by a success on the second attempt returns
the value after two attempts and one 1000 ms sleep with no further
retries; a non rate limit failure propagates immediately after a single
attempt with no sleeps. -/
theorem claim_C4 {τ : Type} :
    (∀ (f : Nat → Except Str τ) (e0 e1 e2 : Str),
        f 0 = .error e0 → isRateLimitError e0 = true →
        f 1 = .error e1 → isRateLimitError e1 = true →
        f 2 = .error e2 → isRateLimitError e2 = true →
        callGeminiWithRetry f = ⟨.error quotaMsg, [1000, 2000], 3⟩) ∧
    (∀ (f : Nat → Except Str τ) (e0 : Str) (v : τ),
        f 0 = .error e0 → isRateLimitError e0 = true →
        f 1 = .ok v →
        callGeminiWithRetry f = ⟨.ok v, [1000], 2⟩) ∧
    (∀ (f : Nat → Except Str τ) (e0 : Str),
        f 0 = .error e0 → isRateLimitError e0 = false →
        callGeminiWithRetry f = ⟨.error e0, [], 1⟩) := by
  refine ⟨?_, ?_, ?_⟩
  · intro f e0 e1 e2 h0 hr0 h1 hr1 h2 hr2
    show retryLoop f (2 + 1) 0 1000 = _
    rw [retryLoop_rl_step f 2 0 1000 e0 h0 hr0 (by decide)]
    rw [show retryLoop f 2 (0 + 1) (1000 * 2) = retryLoop f (1 + 1) 1 2000 from rfl]
    rw [retryLoop_rl_step f 1 1 2000 e1 h1 hr1 (by decide)]
    rw [show retryLoop f 1 (1 + 1) (2000 * 2) = retryLoop f 1 2 4000 from rfl]
    rw [retryLoop_rl_last f 2 4000 e2 h2 hr2]
  · intro f e0 v h0 hr0 h1
    show retryLoop f (2 + 1) 0 1000 = _
    rw [retryLoop_rl_step f 2 0 1000 e0 h0 hr0 (by decide)]
    rw [show retryLoop f 2 (0 + 1) (1000 * 2) = retryLoop f (1 + 1) 1 2000 from rfl]
    rw [retryLoop_ok f 1 1 2000 v h1]
  · intro f e0 h0 hr0
    show retryLoop f (2 + 1) 0 1000 = _
    rw [retryLoop_other f 2 0 1000 e0 h0 hr0]

def fAllRateLimited : Nat → Except Str Nat := fun _ => .error rl429

def fOkSecond : Nat → Except Str Nat := fun n => if n = 0 then .error rl429 else .ok 7

def fOtherError : Nat → Except Str Nat := fun _ => .error ['x']

/-- C4 witness: concrete call sequences exercising the three parts. -/
theorem claim_C4_witness :
    callGeminiWithRetry fAllRateLimited = ⟨.error quotaMsg, [1000, 2000], 3⟩ ∧
    callGeminiWithRetry fOkSecond = ⟨.ok 7, [1000], 2⟩ ∧
    callGeminiWithRetry fOtherError = ⟨.error ['x'], [], 1⟩ :=
  ⟨(@claim_C4 Nat).1 fAllRateLimited rl429 rl429 rl429 rfl (by decide) rfl (by decide)
      rfl (by decide),
   (@claim_C4 Nat).2.1 fOkSecond rl429 7 rfl (by decide) rfl,
   (@claim_C4 Nat).2.2 fOtherError ['x'] rfl (by decide)⟩

/-! Volume and brightness handlers. -/

def digitsToNat : Str → Nat → Nat
  | [], acc => acc
  | c :: rest, acc => digitsToNat rest (acc * 10 + (c.toNat - '0'.toNat))

def parseAllDigits (s : Str) : Option Nat :=
  if s = [] then none
  else if s.all (fun c => c.isDigit) then some (digitsToNat s 0) else none

/-- Embedding of the JS Number conversion for the level strings this app
receives: trimmed empty is zero, an optional sign followed only by decimal
digits is that integer, anything else is NaN, modelled as none. -/
def jsToNumber (s : Str) : Option Int :=
  match trim s with
  | [] => some 0
  | '-' :: rest => (parseAllDigits rest).map (fun n => -(n : Int))
  | '+' :: rest => (parseAllDigits rest).map (fun n => (n : Int))
  | t => (parseAllDigits t).map (fun n => (n : Int))

def leadingDigits (u : Str) : Option Nat :=
  parseAllDigits (u.takeWhile (fun c => c.isDigit))

/-- Embedding of parseInt with radix ten: skip leading whitespace, take an
optional sign and the longest leading digit run; no digits is NaN,
modelled as none. -/
def jsParseInt (s : Str) : Option Int :=
  match trimLeft s with
  | '-' :: rest => (leadingDigits rest).map (fun n => -(n : Int))
  | '+' :: rest => (leadingDigits rest).map (fun n => (n : Int))
  | t => (leadingDigits t).map (fun n => (n : Int))

/-- Math.min with NaN propagation. -/
def jsMin (a b : Option Int) : Option Int :=
  match a, b with
  | some x, some y => some (min x y)
  | _, _ => none

/-- Math.max with NaN propagation. -/
def jsMax (a b : Option Int) : Option Int :=
  match a, b with
  | some x, some y => some (max x y)
  | _, _ => none

def strIncrease : Str := "increase".toList

def strDecrease : Str := "decrease".toList

/-- Volume case of processAssistantResponse (App.tsx lines 550 to 564):
the value handed to setVolume, where none models NaN. -/
def appVolumeUpdate (currentVolume : Int) (level : Str) : Option Int :=
  let newVolume : Option Int :=
    if level = strIncrease then some (currentVolume + 10)
    else if level = strDecrease then some (currentVolume - 10)
    else jsToNumber level
  jsMax (some 0) (jsMin (some 100) newVolume)

/-- SetBrightness case of processAssistantResponse (App.tsx lines 566 to
579): the value handed to setBrightness, where none models NaN. -/
def appBrightnessUpdate (currentBrightness : Int) (level : Str) : Option Int :=
  let newBrightness : Option Int :=
    if level = strIncrease then some (currentBrightness + 10)
    else if level = strDecrease then some (currentBrightness - 10)
    else jsToNumber level
  jsMax (some 20) (jsMin (some 150) newBrightness)

/-- Volume case of handleAssistantAction (part 000 lines 332 to 357): a
level that fails parseInt leaves the volume unchanged. -/
def p0VolumeUpdate (volume : Int) (level : Option Str) : Int :=
  match level with
  | none => volume
  | some l =>
    if l = strIncrease then min (volume + 10) 100
    else if l = strDecrease then max (volume - 10) 0
    else
      match jsParseInt l with
      | some v => max 0 (min 100 v)
      | none => volume

/-- C5: evaluation of the handlers at the reference points of the claim.
The clamps behave as claimed, and the part 000 handler leaves the volume
unchanged on a parse failure, but the App.tsx handler turns a non parsing
level into NaN (none), because the clamp of NaN is NaN, instead of
leaving the volume unchanged. -/
theorem claim_C5_eval :
    appVolumeUpdate 50 ['a', 'b', 'c'] = none ∧
    (none : Option Int) ≠ some 50 ∧
    appVolumeUpdate 95 strIncrease = some 100 ∧
    appVolumeUpdate 5 strDecrease = some 0 ∧
    appBrightnessUpdate 100 ['9', '9', '9'] = some 150 ∧
    appBrightnessUpdate 140 strIncrease = some 150 ∧
    p0VolumeUpdate 50 (some ['a', 'b', 'c']) = 50 ∧
    p0VolumeUpdate 50 (some ['7', '5']) = 75 := by
  decide

/-! Validation of the classification payload. -/

/-- The fields of a parsed classification payload the validation looks at;
none models an absent field. -/
structure RawPayload where
  action : Option Str
  replyText : Option Str
deriving DecidableEq

/-- JS truthiness of an optional string field: absent and empty are
falsy. -/
def isFalsyField : Option Str → Bool
  | none => true
  | some [] => true
  | some (_ :: _) => false

def parseFailMsg : Str :=
  "AI se mila jawab samajh nahi aaya. Kripya punah prayas karein.".toList

def p1ApologyMsg : Str :=
  "Maaf kijiye, anurodh process karne mein ek samasya aa gayi.".toList

def p1Fallback : RawPayload := ⟨some "reply".toList, some p1ApologyMsg⟩

/-- Post parse stage of handleTranscript in services api.ts (lines 94 to
101): the parsed object is returned as the response without any field
validation; only a parse failure itself is surfaced as an error. -/
def apiHandleParsed (parsed : Option RawPayload) : Except Str RawPayload :=
  match parsed with
  | some p => .ok p
  | none => .error parseFailMsg

/-- Post parse stage of handleTranscript in part 001 (lines 105 to 124):
a missing or empty action or replyText throws, and the surrounding catch
converts every failure into the fallback apology reply. -/
def p1HandleParsed (parsed : Option RawPayload) : RawPayload :=
  match parsed with
  | some p =>
    if isFalsyField p.action || isFalsyField p.replyText then p1Fallback else p
  | none => p1Fallback

/-- C6 (amended): in the part 001 classification handler a payload that
parses but has a falsy action or reply text is replaced by the fallback
apology reply, never returned as is and never a crash; the services api.ts
handler instead returns the parsed payload without this validation. -/
theorem claim_C6_amended (p : RawPayload)
    (h : (isFalsyField p.action || isFalsyField p.replyText) = true) :
    p1HandleParsed (some p) = p1Fallback ∧ apiHandleParsed (some p) = .ok p := by
  simp [p1HandleParsed, apiHandleParsed, h]

/-- C6 witness: a payload with reply text but no action becomes the
fallback reply in part 001 and passes through unvalidated in services
api.ts. -/
theorem claim_C6_witness :
    p1HandleParsed (some ⟨none, some ['o', 'k']⟩) = p1Fallback ∧
    apiHandleParsed (some ⟨none, some ['o', 'k']⟩) = .ok ⟨none, some ['o', 'k']⟩ :=
  claim_C6_amended ⟨none, some ['o', 'k']⟩ (by decide)

/-- C6 counterexample: the services api.ts handler returns a payload with
a missing action kind as a normal response, the ok constructor, not as a
surfaced malformed response failure. -/
theorem claim_C6_counterexample :
    apiHandleParsed (some ⟨none, some ['h', 'i']⟩) = .ok ⟨none, some ['h', 'i']⟩ ∧
    (Except.ok ⟨none, some ['h', 'i']⟩ : Except Str RawPayload) ≠
      .error parseFailMsg := by
  decide

/-! The searchYouTube result extraction of services api.ts. -/

def watchStr : Str := "youtube.com/watch".toList

def vKey : Str := ['v']

def searchFailMsg : Str :=
  "YouTube search anurodh vifal raha. Network samasya ho sakti hai.".toList

def thumbOf (v : Str) : Str :=
  "https://i.ytimg.com/vi/".toList ++ v ++ "/hqdefault.jpg".toList

def isSchemeTail : Str → Bool
  | [] => false
  | c :: rest =>
    if c == ':' then true
    else (c.isAlphanum || c == '+' || c == '-' || c == '.') && isSchemeTail rest

/-- Validity test of the URL constructor: an absolute URL begins with a
scheme, a letter followed by letters, digits, plus, minus or dot, then a
colon; the constructor throws on anything else, in particular on a bare
link with no colon at all. -/
def jsURLValid (l : Str) : Bool :=
  match l with
  | [] => false
  | c :: rest => c.isAlpha && isSchemeTail rest

/-- Query portion of a link: the part after the first question mark, any
fragment removed first. -/
def queryOf (l : Str) : Str :=
  let noFrag := l.takeWhile (fun c => c != '#')
  match noFrag.dropWhile (fun c => c != '?') with
  | [] => []
  | _ :: rest => rest

def splitOnChar (sep : Char) : Str → List Str
  | [] => [[]]
  | c :: rest =>
    if c == sep then [] :: splitOnChar sep rest
    else
      match splitOnChar sep rest with
      | [] => [[c]]
      | g :: gs => (c :: g) :: gs

/-- Embedding of the get method of searchParams: the value of the first
pair whose name matches, the empty string when the pair has no equals
sign; percent decoding is not modelled. -/
def searchParamGet (q key : Str) : Option Str :=
  ((splitOnChar '&' q).filterMap (fun pair =>
    if pair.takeWhile (fun c => c != '=') = key then
      some (match pair.dropWhile (fun c => c != '=') with
            | [] => ([] : Str)
            | _ :: rest => rest)
    else none)).head?

/-- One organic result of the search payload: its link, possibly absent,
and its title. -/
structure Organic where
  link : Option Str
  title : Str
deriving DecidableEq

/-- Handling of one organic result inside the searchYouTube loop (api.ts
lines 128 to 143): a link containing youtube.com/watch is given to the
URL constructor, which throws on an invalid link; a non empty v parameter
yields a result. -/
def extractResult (o : Organic) : Except Unit (Option YTResult) :=
  match o.link with
  | none => .ok none
  | some l =>
    if !l.isEmpty && strIncludes l watchStr then
      if jsURLValid l then
        match searchParamGet (queryOf l) vKey with
        | some v => if !v.isEmpty then .ok (some ⟨v, o.title, thumbOf v⟩) else .ok none
        | none => .ok none
      else .error ()
    else .ok none

/-- Loop of searchYouTube accumulating results and breaking once eight are
collected (api.ts lines 125 to 143). -/
def buildResults : List Organic → List YTResult → Except Unit (List YTResult)
  | [], acc => .ok acc
  | o :: rest, acc =>
    match extractResult o with
    | .error e => .error e
    | .ok item =>
      let acc2 := match item with | some r => acc ++ [r] | none => acc
      if 8 ≤ acc2.length then .ok acc2 else buildResults rest acc2

/-- searchYouTube on a decoded payload (api.ts lines 109 to 152): the
surrounding catch converts any thrown error into the network failure
message. -/
def searchYouTubeResults (organic : List Organic) : Except Str (List YTResult) :=
  match buildResults organic [] with
  | .ok l => .ok l
  | .error _ => .error searchFailMsg

/-- The value a non throwing organic result contributes. -/
def extractOk (o : Organic) : Option YTResult :=
  match extractResult o with
  | .ok item => item
  | .error _ => none

theorem buildResults_ok :
    ∀ (orgs : List Organic) (acc l : List YTResult),
      acc.length < 8 → buildResults orgs acc = .ok l →
      l = (acc ++ orgs.filterMap extractOk).take 8 := by
  intro orgs
  induction orgs with
  | nil =>
    intro acc l hlen h
    simp only [buildResults] at h
    injection h with h
    subst h
    rw [List.filterMap_nil, List.append_nil, List.take_of_length_le (by omega)]
  | cons o rest ih =>
    intro acc l hlen h
    simp only [buildResults] at h
    cases hext : extractResult o with
    | error e => rw [hext] at h; exact absurd h (by simp)
    | ok item =>
      rw [hext] at h
      have hok : extractOk o = item := by rw [extractOk, hext]
      cases item with
      | none =>
        simp only at h
        by_cases h8 : 8 ≤ acc.length
        · omega
        · rw [if_neg h8] at h
          rw [List.filterMap_cons, hok]
          exact ih acc l hlen h
      | some r =>
        simp only at h
        by_cases h8 : 8 ≤ (acc ++ [r]).length
        · rw [if_pos h8] at h
          injection h with h
          subst h
          have hlen2 : (acc ++ [r]).length = 8 := by
            rw [List.length_append, List.length_singleton] at h8 ⊢
            omega
          rw [List.filterMap_cons, hok]
          rw [show acc ++ r :: List.filterMap extractOk rest =
            (acc ++ [r]) ++ List.filterMap extractOk rest by simp]
          rw [List.take_append_eq_append_take, hlen2]
          rw [List.take_of_length_le (by omega), Nat.sub_self, List.take_zero,
            List.append_nil]
        · rw [if_neg h8] at h
          have := ih (acc ++ [r]) l (by omega) h
          rw [this, List.filterMap_cons, hok]
          simp

/-- C9 (amended): whenever searchYouTube returns a list, that list is
exactly the first at most eight organic results, in payload order, whose
link contains youtube.com/watch and carries a non empty v parameter; in
particular its length never exceeds eight.  The original claim fails in
that searchYouTube does not return a list for every payload: a matching
link that the URL constructor rejects makes the whole call throw the
network failure error instead. -/
theorem claim_C9_amended (orgs : List Organic) (l : List YTResult)
    (h : searchYouTubeResults orgs = .ok l) :
    l = (orgs.filterMap extractOk).take 8 ∧ l.length ≤ 8 := by
  have hb : buildResults orgs [] = .ok l := by
    rw [searchYouTubeResults] at h
    cases hbe : buildResults orgs [] with
    | ok l2 => rw [hbe] at h; simpa using h
    | error e => rw [hbe] at h; simp at h
  have hmain := buildResults_ok orgs [] l (by decide) hb
  rw [List.nil_append] at hmain
  exact ⟨hmain, by rw [hmain]; exact List.length_take_le 8 _⟩

/-- C9 witness: a payload with one valid watch link produces exactly that
one result. -/
theorem claim_C9_witness :
    ([⟨"abc".toList, ['T'], thumbOf "abc".toList⟩] : List YTResult) =
      (([⟨some "https://www.youtube.com/watch?v=abc".toList, ['T']⟩] :
        List Organic).filterMap extractOk).take 8 ∧
    ([⟨"abc".toList, ['T'], thumbOf "abc".toList⟩] : List YTResult).length ≤ 8 :=
  claim_C9_amended [⟨some "https://www.youtube.com/watch?v=abc".toList, ['T']⟩]
    [⟨"abc".toList, ['T'], thumbOf "abc".toList⟩] (by decide)

/-- C9 counterexample: an organic result whose link contains
youtube.com/watch with a non empty v parameter but no scheme makes the
URL constructor throw, so searchYouTube propagates the network failure
error and returns no list at all for this payload. -/
theorem claim_C9_counterexample :
    searchYouTubeResults [⟨some "youtube.com/watch?v=abc".toList, ['T']⟩] =
      .error searchFailMsg ∧
    strIncludes "youtube.com/watch?v=abc".toList watchStr = true ∧
    searchParamGet (queryOf "youtube.com/watch?v=abc".toList) vKey =
      some "abc".toList := by
  decide

end VoiceAssist
